import Mathlib

/-!
Verification of the omnipdf-extractor core (paragraph grouping, font ranking,
hierarchy labeling, schema projection) against its natural-language
specification.  Python floats are modelled as exact rationals (ℚ), Python
dicts as Lean structures, and the stateful single-pass loops as structural
recursions.  All definitions are translated from `src/extract_layout.py` and
`src/labeler.py`.
-/

namespace OmniPdf

/-- Python `round` (banker's rounding, round-half-to-even) on a rational. -/
def pyRound (q : ℚ) : ℤ :=
  let f : ℤ := ⌊q⌋
  let r : ℚ := q - f
  if r < 1/2 then f
  else if 1/2 < r then f + 1
  else if f % 2 = 0 then f else f + 1

/-- Python `round(x, 2)` on a rational. -/
def pyRound2 (q : ℚ) : ℚ := (pyRound (q * 100) : ℚ) / 100

/-- Whitespace test used by Python `str.strip` (space, tab, newline, CR). -/
def isWS (c : Char) : Bool := c = ' ' ∨ c = '\t' ∨ c = '\n' ∨ c = '\r'

/-- Python `str.strip()`: drop leading and trailing whitespace. -/
def pyStrip (s : String) : String :=
  String.mk (((s.toList.dropWhile isWS).reverse.dropWhile isWS).reverse)

/-- Python `str.isdigit()` (restricted to ASCII digits): nonempty and all digits. -/
def pyIsDigit (s : String) : Bool :=
  !s.toList.isEmpty && s.toList.all Char.isDigit

/-- Python `any(c.isalpha() for c in s)` (restricted to ASCII letters). -/
def hasAlpha (s : String) : Bool := s.toList.any Char.isAlpha

/-- Python `str.isupper()` (ASCII model): has a letter and no lowercase letter. -/
def pyIsUpper (s : String) : Bool :=
  s.toList.any Char.isAlpha && s.toList.all (fun c => !c.isAlpha || c.isUpper)

/-- Python `str.lower()` (ASCII model). -/
def pyLower (s : String) : String := String.mk (s.toList.map Char.toLower)

/-- Helper for substring search: does the needle occur as a prefix. -/
def prefixMatch : List Char → List Char → Bool
  | _, [] => true
  | [], _ :: _ => false
  | h :: hs, n :: ns => h = n && prefixMatch hs ns

/-- Substring test, `needle in hay` for Python strings, over char lists. -/
def containsAt : List Char → List Char → Bool
  | _, [] => true
  | [], _ :: _ => false
  | h :: hs, n :: ns => prefixMatch (h :: hs) (n :: ns) || containsAt hs (n :: ns)

/-- Python `needle in hay` substring containment. -/
def strContains (hay needle : String) : Bool := containsAt hay.toList needle.toList

/-- Lexicographic (code-point) comparison of char lists, Python `str <= str`. -/
def strLeAux : List Char → List Char → Bool
  | [], _ => true
  | _ :: _, [] => false
  | a :: as, b :: bs =>
    if a.val < b.val then true else if b.val < a.val then false else strLeAux as bs

/-- Python `str <= str` on strings (code-point lexicographic order). -/
def strLe (a b : String) : Bool := strLeAux a.toList b.toList

/-- Python `" ".join(l)`. -/
def joinSpace : List String → String
  | [] => ""
  | [s] => s
  | s :: rest => s ++ " " ++ joinSpace rest

/-- Arithmetic mean of a list of rationals (`np.mean`); 0 for the empty list. -/
def listMean (l : List ℚ) : ℚ := if l = [] then 0 else l.sum / l.length

/-- Population variance of a list of rationals (`np.var`). -/
def listVar (l : List ℚ) : ℚ :=
  if l = [] then 0 else listMean (l.map (fun x => (x - listMean l) ^ 2))

/-- First-occurrence deduplication (models building a dict / Counter keyed in
insertion order; also used for Python `set` iteration, whose order is
unspecified — we fix the first-occurrence order). -/
def dedupFirst {α} [DecidableEq α] (l : List α) : List α :=
  l.foldl (fun acc x => if x ∈ acc then acc else acc ++ [x]) []

/-- Insertion-order association list of element counts (Python `Counter`). -/
def addCount {α} [DecidableEq α] : List (α × ℕ) → α → List (α × ℕ)
  | [], x => [(x, 1)]
  | (y, n) :: rest, x =>
    if x = y then (y, n + 1) :: rest else (y, n) :: addCount rest x

/-- First entry with the maximal count (Python `Counter.most_common(1)` keeps
the first-inserted element among ties). -/
def pickMaxCount {α} : α → ℕ → List (α × ℕ) → α
  | x, _, [] => x
  | x, n, (y, m) :: rest => if n < m then pickMaxCount y m rest else pickMaxCount x n rest

/-- `most_common` from `extract_layout.py`: most frequent element, ties broken
by first occurrence; `none` on the empty list. -/
def most_common {α} [DecidableEq α] (l : List α) : Option α :=
  match l.foldl addCount [] with
  | [] => none
  | (x, n) :: rest => some (pickMaxCount x n rest)

/-- Python `sorted(set(l))` for rationals: ascending list of the distinct
elements. -/
def sortedUnique (l : List ℚ) : List ℚ := (dedupFirst l).insertionSort (· ≤ ·)

/-- Python `sorted(l)` for rationals (ascending, with duplicates). -/
def sortAsc (l : List ℚ) : List ℚ := l.insertionSort (· ≤ ·)

/-- `normalize_font_size` from `extract_layout.py`: round to the nearest 0.5
class (`round(font_size * 2) / 2`). -/
def normalize_font_size (font_size : ℚ) : ℚ := (pyRound (font_size * 2) : ℚ) / 2

/-- A line record as produced by `_process_line` in `extract_layout.py`
(the external input boundary of the core).  The bounding box is kept as the
four coordinates `(x0, y0, x1, y1)`; the dict keys `y0`/`y1` duplicate
`bbox[1]`/`bbox[3]` in the source and are modelled as separate fields, just
as in the dicts.  The `line_spacing` key, which the grouping loop writes
into the dict, is modelled separately (see `annotateSpacing`). -/
structure Line where
  text : String
  font_size : ℚ
  normalized_font_size : ℚ
  bx0 : ℚ
  by0 : ℚ
  bx1 : ℚ
  by1 : ℚ
  is_bold : Bool
  alignment : String
  text_case : String
  font_names : List String
  line_height : ℚ
  height_to_font : ℚ
  y0 : ℚ
  y1 : ℚ
  page_num : ℤ
  deriving Repr, DecidableEq

/-- The strict merge test of `group_into_paragraphs_strict`
(`extract_layout.py` lines 298-317): same page, vertical spacing below the
threshold, equal normalized font size class, same bold flag, and
intersecting font-name sets. -/
def shouldMerge (thr : ℚ) (prev curr : Line) : Bool :=
  (curr.page_num = prev.page_num : Bool) &&
  (max 0 (curr.y0 - prev.y1) < thr : Bool) &&
  (curr.normalized_font_size = prev.normalized_font_size : Bool) &&
  (curr.is_bold = prev.is_bold) &&
  (curr.font_names.any fun n => prev.font_names.contains n)

/-- Sort key of `lines.sort(key=lambda x: (x.get('page_num', 0), x.get('y0', 0)))`:
lexicographic on `(page_num, y0)`. -/
def lineLe (a b : Line) : Prop :=
  a.page_num < b.page_num ∨ (a.page_num = b.page_num ∧ a.y0 ≤ b.y0)

instance : DecidableRel lineLe := fun a b => by
  unfold lineLe; infer_instance

instance : IsTotal Line lineLe := by
  constructor; intro a b
  rcases lt_trichotomy a.page_num b.page_num with h | h | h
  · exact Or.inl (Or.inl h)
  · rcases le_total a.y0 b.y0 with h2 | h2
    · exact Or.inl (Or.inr ⟨h, h2⟩)
    · exact Or.inr (Or.inr ⟨h.symm, h2⟩)
  · exact Or.inr (Or.inl h)

instance : IsTrans Line lineLe := by
  constructor
  rintro a b c (h | ⟨h, h'⟩) (g | ⟨g, g'⟩)
  · exact Or.inl (h.trans g)
  · exact Or.inl (g ▸ h)
  · exact Or.inl (h ▸ g)
  · exact Or.inr ⟨h.trans g, h'.trans g'⟩

/-- The in-place stable sort at the top of `group_into_paragraphs_strict`. -/
def sortLines (ls : List Line) : List Line := ls.insertionSort lineLe

/-- A line together with the `line_spacing` value the grouping loop writes
into its dict (`curr['line_spacing'] = spacing`); the first line of the
page never receives the key, so its value is the `get` default 0. -/
abbrev ALine := Line × ℚ

/-- Helper for `annotateSpacing`: each line after the first is annotated with
`max(0, curr.y0 - prev.y1)` against its predecessor. -/
def annotateGo (prev : Line) : List Line → List ALine
  | [] => []
  | c :: rest => (c, max 0 (c.y0 - prev.y1)) :: annotateGo c rest

/-- Spacing annotation performed by the grouping loop of
`group_into_paragraphs_strict`: the loop computes
`spacing = max(0, curr.y0 - prev.y1)` against the previous line (the last
line of the open paragraph, which is always the predecessor in the sorted
list) and stores it in the dict before the merge decision. -/
def annotateSpacing : List Line → List ALine
  | [] => []
  | l :: rest => (l, 0) :: annotateGo l rest

/-- Chunking loop of `group_into_paragraphs_strict` over annotated lines:
`cur` is the open paragraph in reverse order, `prev` its last line. -/
def chunkGoA (thr : ℚ) (cur : List ALine) (prev : Line) : List ALine → List (List ALine)
  | [] => [cur.reverse]
  | c :: rest =>
    if shouldMerge thr prev c.1 then chunkGoA thr (c :: cur) c.1 rest
    else cur.reverse :: chunkGoA thr [c] c.1 rest

/-- Partition of an annotated line list into the open-paragraph groups formed
by `group_into_paragraphs_strict`. -/
def chunkA (thr : ℚ) : List ALine → List (List ALine)
  | [] => []
  | l :: rest => chunkGoA thr [l] l.1 rest

/-- Plain-line version of the chunking loop (same decisions; spacing
annotations ignored by the merge test). -/
def chunkGo (thr : ℚ) (cur : List Line) (prev : Line) : List Line → List (List Line)
  | [] => [cur.reverse]
  | c :: rest =>
    if shouldMerge thr prev c then chunkGo thr (c :: cur) c rest
    else cur.reverse :: chunkGo thr [c] c rest

/-- Partition of a line list into the groups formed by the strict grouping
loop: a maximal run of lines each merging with its predecessor. -/
def chunkLines (thr : ℚ) : List Line → List (List Line)
  | [] => []
  | l :: rest => chunkGo thr [l] l rest

/-- A paragraph record as produced by `aggregate_paragraph` in
`extract_layout.py` (and consumed, as parsed JSON, by the labeler).
`paragraph_id` is the random uuid tag (`p_<uuid4>`), opaque to all logic;
`relative_font_size` is the key added by `_extract_paragraphs_from_document`
(0 until assigned); `bold_fraction` models the source key `bold_ratio` and
`avg_height_to_font` the source key `avg_height_to_font_ratio`. -/
structure Para where
  paragraph_id : String
  page_num : ℤ
  text : String
  avg_font_size : ℚ
  normalized_font_size : ℚ
  font_size_variance : ℚ
  avg_line_height : ℚ
  avg_height_to_font : ℚ
  line_spacing_avg : ℚ
  bx0 : ℚ
  by0 : ℚ
  bx1 : ℚ
  by1 : ℚ
  is_bold : Bool
  bold_fraction : ℚ
  is_upper : Bool
  alignment : String
  line_count : ℕ
  font_names : List String
  primary_font_family : List String
  text_case : String
  length : ℕ
  is_homogeneous : Bool
  relative_font_size : ℚ
  deriving Repr, DecidableEq

/-- `aggregate_paragraph` from `extract_layout.py`: collapse the lines of one
group into a single paragraph record; `none` when the combined text is empty
after stripping.  The numeric-type `isinstance` filters of the source are
vacuous here because every field is typed; the random uuid suffix of
`paragraph_id` is modelled by the fixed prefix string.  Python's
`list(set(all_font_names))` has unspecified order, fixed here to
first-occurrence order. -/
def aggregate_paragraph (lines : List ALine) : Option Para :=
  match lines with
  | [] => none
  | l0 :: _ =>
    let texts := (lines.map (fun l => l.1.text)).filter (fun t => t ≠ "")
    if texts = [] then none
    else
      let para_text := joinSpace texts
      if pyStrip para_text = "" then none
      else
        let font_sizes := lines.map (fun l => l.1.font_size)
        let normalized_font_sizes := lines.map (fun l => l.1.normalized_font_size)
        let line_heights := lines.map (fun l => l.1.line_height)
        let hf_quotients := lines.map (fun l => l.1.height_to_font)
        let spacing_vals := (lines.map (fun l => l.2)).filter (fun s => 0 < s)
        let avg_font_size := pyRound2 (listMean font_sizes)
        let avg_norm := pyRound2 (listMean normalized_font_sizes)
        let avg_line_height := pyRound2 (listMean line_heights)
        let avg_quot := pyRound2 (listMean hf_quotients)
        let avg_spacing := if spacing_vals = [] then 0 else pyRound2 (listMean spacing_vals)
        let font_weights := lines.map (fun l => l.1.is_bold)
        let font_names_lists := lines.map (fun l => l.1.font_names)
        let all_font_names := font_names_lists.flatten
        let alignments := lines.map (fun l => l.1.alignment)
        let text_cases := lines.map (fun l => l.1.text_case)
        let mc_alignment := most_common alignments
        let mc_text_case := most_common text_cases
        let mc_font_names :=
          most_common ((font_names_lists.filter (fun ns => ns ≠ [])).map
            (fun ns => ns.insertionSort (fun a b => strLe a b)))
        let fsv := if 1 < lines.length then pyRound2 (listVar font_sizes) else 0
        some
          { paragraph_id := "p_"
            page_num := l0.1.page_num
            text := para_text
            avg_font_size := avg_font_size
            normalized_font_size := avg_norm
            font_size_variance := fsv
            avg_line_height := avg_line_height
            avg_height_to_font := avg_quot
            line_spacing_avg := avg_spacing
            bx0 := (lines.map (fun l => l.1.bx0)).foldl min l0.1.bx0
            by0 := (lines.map (fun l => l.1.by0)).foldl min l0.1.by0
            bx1 := (lines.map (fun l => l.1.bx1)).foldl max l0.1.bx1
            by1 := (lines.map (fun l => l.1.by1)).foldl max l0.1.by1
            is_bold := font_weights.all id && !font_weights.isEmpty
            bold_fraction :=
              pyRound2 (((font_weights.filter id).length : ℚ) / (font_weights.length : ℚ))
            is_upper := pyIsUpper para_text
            alignment := (mc_alignment.getD "unknown")
            line_count := lines.length
            font_names := dedupFirst all_font_names
            primary_font_family := mc_font_names.getD []
            text_case := mc_text_case.getD "Mixed"
            length := para_text.length
            is_homogeneous := fsv < 1/10
            relative_font_size := 0 }

/-- `group_into_paragraphs_strict` from `extract_layout.py`: stable sort by
`(page_num, y0)`, annotate spacings, partition into maximal merge runs, and
aggregate each run, dropping runs whose aggregate is `None`. -/
def group_into_paragraphs_strict (thr : ℚ) (ls : List Line) : List Para :=
  (chunkA thr (annotateSpacing (sortLines ls))).filterMap aggregate_paragraph

/-- `{fs: idx for idx, fs in enumerate(l)}` starting at index `i`: the rank
dict as an association list in ascending key order. -/
def rankPairsFrom (i : ℕ) : List ℚ → List (ℚ × ℕ)
  | [] => []
  | x :: xs => (x, i) :: rankPairsFrom (i + 1) xs

/-- `build_relative_font_ranks` from `extract_layout.py`: map each distinct
font size, rounded to 2 decimals, to its 0-indexed ascending rank.  The dict
is modelled as an association list in ascending key order. -/
def build_relative_font_ranks (font_sizes : List ℚ) : List (ℚ × ℕ) :=
  if font_sizes = [] then []
  else
    let unique_sizes := sortedUnique font_sizes
    let rounded_sizes := unique_sizes.map pyRound2
    let unique_rounded := sortedUnique rounded_sizes
    rankPairsFrom 0 unique_rounded

/-- Dict lookup with default 0, `font_size_ranks.get(fs, 0)` as used in
`_extract_paragraphs_from_document`. -/
def rank_of (ranks : List (ℚ × ℕ)) (fs : ℚ) : ℕ :=
  ((ranks.find? (fun p => p.1 = fs)).map (fun p => p.2)).getD 0

/-- The enrichment loop of `_extract_paragraphs_from_document`: each
paragraph's `relative_font_size` is the rank of its `avg_font_size`, 0 when
absent from the mapping. -/
def add_relative_font_size (ranks : List (ℚ × ℕ)) (p : Para) : Para :=
  { p with relative_font_size := (rank_of ranks p.avg_font_size : ℚ) }

/-- `min(page_numbers)` with default 1, from `label_document_hierarchy`
(every record carries a `page_num`, so the `is not None` filter is vacuous). -/
def lowest_page_num (objs : List Para) : ℤ :=
  match objs.map (fun o => o.page_num) with
  | [] => 1
  | x :: xs => xs.foldl min x

/-- The first-page restriction of `label_document_hierarchy`. -/
def first_page_objects (objs : List Para) : List Para :=
  objs.filter (fun o => o.page_num = lowest_page_num objs)

/-- The title-candidate filter of `label_document_hierarchy` (lines 34-40):
positive relative font size, stripped text length strictly between 5 and
200, not purely numeric. -/
def title_candidates (objs : List Para) : List Para :=
  (first_page_objects objs).filter (fun o =>
    0 < o.relative_font_size ∧
    5 < (pyStrip o.text).length ∧ (pyStrip o.text).length < 200 ∧
    ¬ pyIsDigit (pyStrip o.text))

/-- `title_max_font_size`: maximum relative font size among title candidates
(0 when there are none; the source only reads it when candidates exist). -/
def title_max_font_size (objs : List Para) : ℚ :=
  match (title_candidates objs).map (fun o => o.relative_font_size) with
  | [] => 0
  | x :: xs => xs.foldl max x

/-- The candidates sharing the maximal relative font size. -/
def max_font_objs (objs : List Para) : List Para :=
  (title_candidates objs).filter (fun o => o.relative_font_size = title_max_font_size objs)

/-- `title_feats` from `label_document_hierarchy`: the clustering key
`(relative_font_size, tuple(primary_font_family), is_bold)`. -/
def title_feats (o : Para) : ℚ × List String × Bool :=
  (o.relative_font_size, o.primary_font_family, o.is_bold)

/-- One step of `clusters.setdefault(k, []).append(obj)`: insertion-ordered
association list from feature keys to clusters. -/
def addToClusters (cs : List ((ℚ × List String × Bool) × List Para)) (o : Para) :
    List ((ℚ × List String × Bool) × List Para) :=
  match cs with
  | [] => [(title_feats o, [o])]
  | (k, c) :: rest =>
    if title_feats o = k then (k, c ++ [o]) :: rest
    else (k, c) :: addToClusters rest o

/-- The cluster dict built over the maximal-font candidates. -/
def clustersOf (objs : List Para) : List ((ℚ × List String × Bool) × List Para) :=
  (max_font_objs objs).foldl addToClusters []

/-- `max(clusters.values(), key=len)`: Python `max` keeps the first maximal
element in iteration (insertion) order. -/
def pickLargest (best : List Para) : List ((ℚ × List String × Bool) × List Para) → List Para
  | [] => best
  | (_, c) :: rest => if best.length < c.length then pickLargest c rest else pickLargest best rest

/-- `largest_cluster` from `label_document_hierarchy` ([] when there are no
title candidates). -/
def largest_title_cluster (objs : List Para) : List Para :=
  match clustersOf objs with
  | [] => []
  | (_, c) :: rest => pickLargest c rest

/-- The synthetic merged title paragraph of `label_document_hierarchy`
(lines 41-66): copy of the largest cluster's first member with the
space-joined stripped member texts, and — only when the cluster has more
than one member — the coordinate-wise mean bounding box.  `none` when there
are no title candidates. -/
def title_candidate (objs : List Para) : Option Para :=
  match largest_title_cluster objs with
  | [] => none
  | h :: t =>
    let cluster := h :: t
    let merged_text := joinSpace ((cluster.map (fun o => pyStrip o.text)).filter (fun s => s ≠ ""))
    let m := { h with text := merged_text }
    if 1 < cluster.length then
      some { m with
        bx0 := listMean (cluster.map (fun o => o.bx0))
        by0 := listMean (cluster.map (fun o => o.by0))
        bx1 := listMean (cluster.map (fun o => o.bx1))
        by1 := listMean (cluster.map (fun o => o.by1)) }
    else some m

/-- The threshold-derivation collection of `label_document_hierarchy`
(lines 72-77): relative font sizes of all records that are positive and,
when a title candidate exists, not equal (as dicts) to it. -/
def label_font_sizes (objs : List Para) : List ℚ :=
  (objs.filter (fun o =>
    (0 < o.relative_font_size : Bool) &&
    (match title_candidate objs with
     | none => true
     | some t => (o ≠ t : Bool)))).map (fun o => o.relative_font_size)

/-- `np.percentile(xs, q)` with the default linear interpolation: virtual
index `q/100 * (n-1)` into the ascending sort, interpolating linearly
between the two surrounding values. -/
def npPercentile (xs : List ℚ) (q : ℚ) : ℚ :=
  match sortAsc xs with
  | [] => 0
  | s =>
    let n := s.length
    let pos := q * ((n : ℚ) - 1) / 100
    let i := (⌊pos⌋).toNat
    let g := pos - (⌊pos⌋ : ℚ)
    let lo := s.getD i 0
    let hi := s.getD (i + 1) lo
    lo + g * (hi - lo)

/-- The threshold ladder of `label_document_hierarchy` (lines 86-103):
percentiles 90/75/60 when at least 4 values exist, otherwise the distinct
descending sizes padded with zeros. -/
def computeThresholds (fs : List ℚ) : ℚ × ℚ × ℚ :=
  if 4 ≤ fs.length then
    (npPercentile fs 90, npPercentile fs 75, npPercentile fs 60)
  else
    match (sortedUnique fs).reverse with
    | a :: b :: c :: _ => (a, b, c)
    | [a, b] => (a, b, 0)
    | [a] => (a, 0, 0)
    | [] => (0, 0, 0)

/-- The `(h1_threshold, h2_threshold, h3_threshold)` triple of a document. -/
def thresholds_of (objs : List Para) : ℚ × ℚ × ℚ :=
  computeThresholds (label_font_sizes objs)

/-- `font_family` from `calculate_enhanced_features`: lowercased first entry
of `primary_font_family`, falling back to the first `font_names` entry, then
to the empty string.  (The string-typed branches of the source are vacuous
here: both fields are lists.) -/
def font_family_of (o : Para) : String :=
  pyLower (match o.primary_font_family with
    | f :: _ => f
    | [] =>
      match o.font_names with
      | f :: _ => f
      | [] => "")

/-- `has_bold_family` from `calculate_enhanced_features`. -/
def has_bold_family (o : Para) : Bool :=
  ["bold", "heading", "heavy", "black"].any (fun k => strContains (font_family_of o) k)

/-- `text_length` feature: length of the stripped text. -/
def text_len (o : Para) : ℕ := (pyStrip o.text).length

/-- `calculate_header_score` from `label_document_hierarchy`: the
additively-weighted heading score. -/
def calculate_header_score (thr : ℚ × ℚ × ℚ) (o : Para) : ℚ :=
  let maxThr := max thr.1 (max thr.2.1 (max thr.2.2 1))
  let s1 := o.relative_font_size / maxThr * 30
  let s2 := if o.is_bold then (25 : ℚ) else 0
  let s3 := o.bold_fraction * 20
  let s4 :=
    if has_bold_family o then (15 : ℚ)
    else if strContains (font_family_of o) "arial" || strContains (font_family_of o) "helvetica"
    then 5 else 0
  let s5 := if 0 < o.avg_line_height then min (o.avg_line_height / 20) 1 * 10 else 0
  let s6 := if o.text_case = "UPPER" then (10 : ℚ) else if o.text_case = "Title" then 8 else 0
  let s7 :=
    if pyLower o.alignment = "center" then (10 : ℚ)
    else if pyLower o.alignment = "left" then 7 else 0
  let s8 := if o.by0 < 150 then (7 : ℚ) else if o.by0 < 400 then 5 else 0
  s1 + s2 + s3 + s4 + s5 + s6 + s7 + s8

/-- The guard and score-band classification of `assign_enhanced_level`
(lines 184-224), i.e. everything after the title/first-page short-circuits:
short numeric or non-alphabetic texts and texts longer than 350 are `p`;
otherwise the three score bands compare the relative font size against the
thresholds. -/
def score_level (thr : ℚ × ℚ × ℚ) (o : Para) : String :=
  let fs := o.relative_font_size
  if text_len o ≤ 3 ∧ (pyIsDigit o.text ∨ ¬ hasAlpha o.text) then "p"
  else if 350 < text_len o then "p"
  else
    let score := calculate_header_score thr o
    if 65 ≤ score then
      if thr.1 ≤ fs ∧ 0 < thr.1 then "H1"
      else if thr.2.1 ≤ fs ∧ 0 < thr.2.1 then "H2"
      else if thr.2.2 ≤ fs ∧ 0 < thr.2.2 then "H3"
      else if 75 ≤ score then "H3"
      else "p"
    else if 45 ≤ score then
      if thr.1 ≤ fs ∧ 0 < thr.1 then "H1"
      else if thr.2.1 ≤ fs ∧ 0 < thr.2.1 then "H2"
      else if thr.2.2 ≤ fs ∧ 0 < thr.2.2 then "H3"
      else if 55 ≤ score ∧ o.is_bold then "H3"
      else "p"
    else if 25 ≤ score then
      if thr.1 ≤ fs ∧ 0 < thr.1 ∧ o.is_bold then "H1"
      else if thr.2.1 ≤ fs ∧ 0 < thr.2.1 ∧ o.is_bold then "H2"
      else if thr.2.2 ≤ fs ∧ 0 < thr.2.2 ∧ o.is_bold then "H3"
      else "p"
    else "p"

/-- `assign_enhanced_level` from `label_document_hierarchy`: title equality
short-circuit, the forced `p` for first-page records below the title's font
size, then the guard/score classification. -/
def assign_enhanced_level (objs : List Para) (o : Para) : String :=
  match title_candidate objs with
  | some t =>
    if o = t then "title"
    else if o.page_num = lowest_page_num objs ∧
            o.relative_font_size < title_max_font_size objs then "p"
    else score_level (thresholds_of objs) o
  | none => score_level (thresholds_of objs) o

/-- A labeled paragraph: the record plus its `level` value. -/
structure LPara where
  para : Para
  level : String
  deriving Repr, DecidableEq

/-- The first labeling pass (lines 226-235): each record is copied and given
its assigned level. -/
def initial_labeling (objs : List Para) : List LPara :=
  objs.map (fun o => ⟨o, assign_enhanced_level objs o⟩)

/-- The lookahead-promotion condition (lines 237-248): the current record's
initial label is not a heading or title, the next record's initial label is
`p`, and the current record is bold with relative font size at least the h3
threshold and positive. -/
def promote_cond (h3 : ℚ) (x y : LPara) : Bool :=
  !(["H1", "H2", "H3", "title"].contains x.level) &&
  (y.level = "p" : Bool) &&
  x.para.is_bold &&
  (h3 ≤ x.para.relative_font_size : Bool) &&
  (0 < x.para.relative_font_size : Bool)

/-- The lookahead-promotion pass: a qualifying record immediately followed
by another record is promoted to `H3`.  Decisions read the initial labels
(the source consults the immutable `initial_labels` array), so the
recursion passes the unmodified successor along. -/
def lookahead_promote (h3 : ℚ) : List LPara → List LPara
  | [] => []
  | [x] => [x]
  | x :: y :: rest =>
    (if promote_cond h3 x y then { x with level := "H3" } else x) :: lookahead_promote h3 (y :: rest)

/-- One step of `_ensure_logical_hierarchy`: given
`(seen_title, seen_h1, seen_h2)` and the current level, produce the updated
flags and the possibly rewritten level. -/
def ensure_step (seen : Bool × Bool × Bool) (lv : String) : (Bool × Bool × Bool) × String :=
  match seen with
  | (st, s1, s2) =>
    if lv = "title" then ((true, s1, s2), lv)
    else if lv = "H1" then ((st, true, s2), lv)
    else if lv = "H2" then
      if s1 then ((st, s1, true), "H2") else ((st, true, s2), "H1")
    else if lv = "H3" then
      if s2 then ((st, s1, s2), "H3")
      else if s1 then ((st, s1, true), "H2")
      else ((st, true, s2), "H1")
    else ((st, s1, s2), lv)

/-- The scan of `_ensure_logical_hierarchy`, threading the seen flags. -/
def repairGo (seen : Bool × Bool × Bool) : List LPara → List LPara
  | [] => []
  | x :: rest =>
    let r := ensure_step seen x.level
    { x with level := r.2 } :: repairGo r.1 rest

/-- `_ensure_logical_hierarchy` from `labeler.py`: rewrite `H2` seen before
any `H1` to `H1`, and `H3` seen before any `H2` to `H2` (if an `H1` was
seen) or `H1`. -/
def ensure_logical_hierarchy (l : List LPara) : List LPara :=
  repairGo (false, false, false) l

/-- `label_document_hierarchy` from `labeler.py`: empty input is returned
unchanged; when no positive non-title font sizes exist every record is
labeled `title` or `p` and the later passes are skipped; otherwise initial
labeling, lookahead promotion and hierarchy repair run in sequence. -/
def label_document_hierarchy (objs : List Para) : List LPara :=
  if objs.isEmpty then []
  else if label_font_sizes objs = [] then
    objs.map (fun o =>
      ⟨o, match title_candidate objs with
          | some t => if o = t then "title" else "p"
          | none => "p"⟩)
  else
    ensure_logical_hierarchy
      (lookahead_promote (thresholds_of objs).2.2 (initial_labeling objs))

/-- One entry of the output outline. -/
structure OutlineEntry where
  level : String
  text : String
  page : ℤ
  deriving Repr, DecidableEq

/-- The terminal `DocumentOutline` value. -/
structure DocumentOutline where
  title : String
  outline : List OutlineEntry
  deriving Repr, DecidableEq

/-- `transform_to_schema` from `labeler.py`: the first `title`-labeled
record's stripped text becomes the document title (empty if none), and each
`H1`/`H2`/`H3` record with nonempty stripped text becomes one outline entry
in order. -/
def transform_to_schema (labeled : List LPara) : DocumentOutline :=
  let title :=
    match labeled.find? (fun x => (x.level = "title" : Bool)) with
    | some t => pyStrip t.para.text
    | none => ""
  let outline := labeled.filterMap (fun x =>
    if (x.level = "H1" ∨ x.level = "H2" ∨ x.level = "H3") ∧ pyStrip x.para.text ≠ ""
    then some ⟨x.level, pyStrip x.para.text, x.para.page_num⟩
    else none)
  ⟨title, outline⟩

/-- The labeling-plus-projection pipeline (`label_document_hierarchy`
followed by `transform_to_schema`). -/
def process_document (objs : List Para) : DocumentOutline :=
  transform_to_schema (label_document_hierarchy objs)

/-! ### Concrete records used as test inputs -/

/-- A paragraph record with neutral default field values; concrete inputs
below override the fields relevant to them. -/
def basePara : Para :=
  { paragraph_id := "p_", page_num := 1, text := "", avg_font_size := 0,
    normalized_font_size := 0, font_size_variance := 0, avg_line_height := 0,
    avg_height_to_font := 0, line_spacing_avg := 0, bx0 := 0, by0 := 0,
    bx1 := 0, by1 := 0, is_bold := false, bold_fraction := 0, is_upper := false,
    alignment := "unknown", line_count := 1, font_names := [],
    primary_font_family := [], text_case := "Mixed", length := 0,
    is_homogeneous := true, relative_font_size := 0 }

/-- Title paragraph of the promotion test document: sole largest-font
candidate on page 1. -/
def pA : Para := { basePara with text := "Main Title Here", relative_font_size := 5 }

/-- Bold page-1 paragraph with relative font size below the title's. -/
def pQ : Para :=
  { basePara with text := "Section Overview", relative_font_size := 3, is_bold := true }

/-- Body paragraph (zero relative font size) following `pQ`. -/
def pR : Para := { basePara with text := "some body text here", relative_font_size := 0 }

/-- Short purely-numeric bold paragraph ("7") with a large font rank. -/
def pN : Para := { basePara with text := "7", relative_font_size := 3, is_bold := true }

/-- Plain body paragraph on page 2 following `pN`. -/
def pM : Para :=
  { basePara with text := "some body text here", relative_font_size := 1, page_num := 2 }

/-- First member of a two-element title cluster. -/
def pA2 : Para :=
  { basePara with
    text := "Hello Document"
    relative_font_size := 4
    primary_font_family := ["F"]
    by0 := 100 }

/-- Second member of a two-element title cluster (same clustering key). -/
def pB2 : Para :=
  { basePara with
    text := "World Title"
    relative_font_size := 4
    primary_font_family := ["F"]
    by0 := 200 }

/-- The synthetic merged title of the document `[pA2, pB2]`: joined texts
and averaged bounding box, equal to no input record. -/
def mergedAB : Para :=
  { pA2 with text := "Hello Document World Title", by0 := 150 }

/-- A paragraph with empty text (never a title candidate) carrying a given
relative font size. -/
def pW (r : ℚ) : Para := { basePara with relative_font_size := r }

/-- Four-paragraph document exercising the percentile branch of threshold
derivation. -/
def w4 : List Para := [pW 1, pW 2, pW 3, pW 4]

/-- A line record with neutral defaults for grouping tests. -/
def baseLine : Line :=
  { text := "hello", font_size := 10, normalized_font_size := 10, bx0 := 0,
    by0 := 0, bx1 := 0, by1 := 0, is_bold := false, alignment := "left",
    text_case := "lower", font_names := ["Arial"], line_height := 10,
    height_to_font := 1, y0 := 0, y1 := 10, page_num := 1 }

/-- First witness line (top of the page). -/
def wl1 : Line := baseLine

/-- Second witness line, 5 points below `wl1` (merges with it). -/
def wl2 : Line := { baseLine with y0 := 15, y1 := 25 }

/-- Third witness line, 25 points below `wl2` (starts a new paragraph). -/
def wl3 : Line := { baseLine with y0 := 50, y1 := 60 }

/-! ### Hierarchy repair: legality invariant (claim C2) -/

/-- If a repair step raises the `seen_h1` flag, either it was already set or
the emitted level is `H1`. -/
lemma ensure_step_h1 (seen : Bool × Bool × Bool) (lv : String)
    (h : (ensure_step seen lv).1.2.1 = true) :
    seen.2.1 = true ∨ (ensure_step seen lv).2 = "H1" := by
  obtain ⟨st, s1, s2⟩ := seen
  unfold ensure_step at *
  cases s1 <;> cases s2 <;> split_ifs at * <;> simp_all

/-- If a repair step raises the `seen_h2` flag, either it was already set or
the emitted level is `H2`. -/
lemma ensure_step_h2 (seen : Bool × Bool × Bool) (lv : String)
    (h : (ensure_step seen lv).1.2.2 = true) :
    seen.2.2 = true ∨ (ensure_step seen lv).2 = "H2" := by
  obtain ⟨st, s1, s2⟩ := seen
  unfold ensure_step at *
  cases s1 <;> cases s2 <;> split_ifs at * <;> simp_all

/-- A repair step emits `H2` only when `seen_h1` is already set. -/
lemma ensure_step_out_h2 (seen : Bool × Bool × Bool) (lv : String)
    (h : (ensure_step seen lv).2 = "H2") : seen.2.1 = true := by
  obtain ⟨st, s1, s2⟩ := seen
  unfold ensure_step at *
  cases s1 <;> cases s2 <;> split_ifs at * <;> simp_all

/-- A repair step emits `H3` only when `seen_h2` is already set. -/
lemma ensure_step_out_h3 (seen : Bool × Bool × Bool) (lv : String)
    (h : (ensure_step seen lv).2 = "H3") : seen.2.2 = true := by
  obtain ⟨st, s1, s2⟩ := seen
  unfold ensure_step at *
  cases s1 <;> cases s2 <;> split_ifs at * <;> simp_all

/-- Invariant of the repair scan: an output `H2` at position `i` is preceded
by an output `H1` unless `seen_h1` already held on entry. -/
lemma repairGo_h2 (l : List LPara) :
    ∀ (seen : Bool × Bool × Bool) (i : ℕ) (hi : i < (repairGo seen l).length),
    ((repairGo seen l).get ⟨i, hi⟩).level = "H2" →
    seen.2.1 = true ∨ "H1" ∈ ((repairGo seen l).take i).map (fun x => x.level) := by
  induction l with
  | nil => intro seen i hi; simp [repairGo] at hi
  | cons x rest ih =>
    intro seen i hi hlv
    match i with
    | 0 =>
      left
      simp only [repairGo, List.get] at hlv
      exact ensure_step_out_h2 seen x.level hlv
    | Nat.succ j =>
      have hj : j < (repairGo (ensure_step seen x.level).1 rest).length := by
        simpa [repairGo] using hi
      have hlv' : ((repairGo (ensure_step seen x.level).1 rest).get ⟨j, hj⟩).level = "H2" := by
        simpa [repairGo] using hlv
      rcases ih (ensure_step seen x.level).1 j hj hlv' with hflag | hmem
      · rcases ensure_step_h1 seen x.level hflag with hs | hout
        · exact Or.inl hs
        · right
          simp [repairGo, hout]
      · right
        simp only [repairGo, List.take, List.map]
        exact List.mem_cons_of_mem _ hmem

/-- Invariant of the repair scan: an output `H3` at position `i` is preceded
by an output `H2` unless `seen_h2` already held on entry. -/
lemma repairGo_h3 (l : List LPara) :
    ∀ (seen : Bool × Bool × Bool) (i : ℕ) (hi : i < (repairGo seen l).length),
    ((repairGo seen l).get ⟨i, hi⟩).level = "H3" →
    seen.2.2 = true ∨ "H2" ∈ ((repairGo seen l).take i).map (fun x => x.level) := by
  induction l with
  | nil => intro seen i hi; simp [repairGo] at hi
  | cons x rest ih =>
    intro seen i hi hlv
    match i with
    | 0 =>
      left
      simp only [repairGo, List.get] at hlv
      exact ensure_step_out_h3 seen x.level hlv
    | Nat.succ j =>
      have hj : j < (repairGo (ensure_step seen x.level).1 rest).length := by
        simpa [repairGo] using hi
      have hlv' : ((repairGo (ensure_step seen x.level).1 rest).get ⟨j, hj⟩).level = "H3" := by
        simpa [repairGo] using hlv
      rcases ih (ensure_step seen x.level).1 j hj hlv' with hflag | hmem
      · rcases ensure_step_h2 seen x.level hflag with hs | hout
        · exact Or.inl hs
        · right
          simp [repairGo, hout]
      · right
        simp only [repairGo, List.take, List.map]
        exact List.mem_cons_of_mem _ hmem

/-- C2: after the hierarchy-repair pass, every position labeled `H2` has an
earlier position labeled `H1`, and every position labeled `H3` has an
earlier position labeled `H2` (an `H3` seen before any `H2` having been
rewritten to `H2` if an `H1` was seen, else to `H1`). -/
theorem hierarchy_repair_legal (l : List LPara) (i : ℕ)
    (hi : i < (ensure_logical_hierarchy l).length) :
    (((ensure_logical_hierarchy l).get ⟨i, hi⟩).level = "H2" →
      "H1" ∈ ((ensure_logical_hierarchy l).take i).map (fun x => x.level)) ∧
    (((ensure_logical_hierarchy l).get ⟨i, hi⟩).level = "H3" →
      "H2" ∈ ((ensure_logical_hierarchy l).take i).map (fun x => x.level)) := by
  constructor
  · intro h
    rcases repairGo_h2 l (false, false, false) i hi h with hflag | hmem
    · exact absurd hflag (by simp)
    · exact hmem
  · intro h
    rcases repairGo_h3 l (false, false, false) i hi h with hflag | hmem
    · exact absurd hflag (by simp)
    · exact hmem

/-- Witness for C2 on a concrete labeled list: the `H2` at position 1 of the
repaired list is preceded by an `H1`. -/
theorem hierarchy_repair_legal_witness :
    "H1" ∈ ((ensure_logical_hierarchy [⟨basePara, "H1"⟩, ⟨basePara, "H2"⟩]).take 1).map
      (fun x => x.level) :=
  (hierarchy_repair_legal [⟨basePara, "H1"⟩, ⟨basePara, "H2"⟩] 1 (by decide)).1 (by decide)

/-! ### Frame property of labeling (claim C9) and totality (claim C8) -/

/-- The lookahead pass changes only the `level` field: the underlying
paragraph records are untouched. -/
lemma lookahead_map_para (h3 : ℚ) :
    ∀ (l : List LPara), (lookahead_promote h3 l).map (fun x => x.para) = l.map (fun x => x.para)
  | [] => rfl
  | [x] => rfl
  | x :: y :: rest => by
    have ih := lookahead_map_para h3 (y :: rest)
    by_cases h : promote_cond h3 x y = true <;> simp [lookahead_promote, h] <;>
      simpa using ih

/-- The repair scan changes only the `level` field. -/
lemma repairGo_map_para :
    ∀ (l : List LPara) (seen : Bool × Bool × Bool),
    (repairGo seen l).map (fun x => x.para) = l.map (fun x => x.para)
  | [], _ => rfl
  | x :: rest, seen => by
    simp [repairGo, repairGo_map_para rest]

/-- The initial labeling pass pairs each record with a level and keeps the
record itself unchanged. -/
lemma initial_labeling_map_para (objs : List Para) :
    (initial_labeling objs).map (fun x => x.para) = objs := by
  simp [initial_labeling, List.map_map]
  exact List.map_id objs

/-- The whole labeling pipeline maps its output records back to the input:
no record is dropped, duplicated, reordered, or altered outside `level`. -/
lemma label_map_para (objs : List Para) :
    (label_document_hierarchy objs).map (fun x => x.para) = objs := by
  unfold label_document_hierarchy
  split_ifs with h1 h2
  · simp [List.isEmpty_iff.mp h1]
  · simp [List.map_map]
    exact List.map_id objs
  · rw [ensure_logical_hierarchy, repairGo_map_para, lookahead_map_para,
      initial_labeling_map_para]

/-- C9: labeling preserves the number and order of the records, and every
field other than `level` survives unchanged: the full pipeline and, in
particular, the hierarchy-repair pass map each input record to an output
record with the identical paragraph data. -/
theorem labeling_preserves_records (objs : List Para) :
    ((label_document_hierarchy objs).map (fun x => x.para) = objs) ∧
    ((label_document_hierarchy objs).length = objs.length) ∧
    ∀ (l : List LPara),
      (ensure_logical_hierarchy l).map (fun x => x.para) = l.map (fun x => x.para) := by
  refine ⟨label_map_para objs, ?_, fun l => repairGo_map_para l (false, false, false)⟩
  calc (label_document_hierarchy objs).length
      = ((label_document_hierarchy objs).map (fun x => x.para)).length := by simp
    _ = objs.length := by rw [label_map_para objs]

/-- C8: the pipeline is total; the empty input yields exactly
`{"title": "", "outline": []}`, and every outline entry of any output has a
heading level in `{H1, H2, H3}` and nonempty text. -/
theorem pipeline_total_and_valid :
    (process_document [] = ⟨"", []⟩) ∧
    ∀ (objs : List Para) (e : OutlineEntry), e ∈ (process_document objs).outline →
      (e.level = "H1" ∨ e.level = "H2" ∨ e.level = "H3") ∧ e.text ≠ "" := by
  constructor
  · rfl
  · intro objs e he
    simp only [process_document, transform_to_schema, List.mem_filterMap] at he
    obtain ⟨x, _, hx⟩ := he
    by_cases hc : (x.level = "H1" ∨ x.level = "H2" ∨ x.level = "H3") ∧ pyStrip x.para.text ≠ ""
    · rw [if_pos hc] at hx
      obtain rfl := Option.some.inj hx
      exact ⟨hc.1, hc.2⟩
    · rw [if_neg hc] at hx
      cases hx

/-! ### Concrete evaluation of the pipeline on the document `[pN, pM]` -/

set_option maxHeartbeats 1000000

/-- On the two-record document `[pN, pM]` no title candidate exists (the
only first-page text is too short). -/
lemma evalNM_title : title_candidate [pN, pM] = none := by
  have l1 : (pyStrip "7").length = 1 := by decide
  norm_num [title_candidate, largest_title_cluster, clustersOf, max_font_objs,
    title_candidates, first_page_objects, lowest_page_num, title_max_font_size,
    pN, pM, basePara, l1]

/-- Collected font sizes of `[pN, pM]`. -/
lemma evalNM_sizes : label_font_sizes [pN, pM] = [3, 1] := by
  have e1' := evalNM_title
  simp only [pN, pM, basePara] at e1'
  norm_num [label_font_sizes, e1', pN, pM, basePara]

/-- Thresholds of `[pN, pM]`: two distinct sizes, so the descending fallback
with `h3 = 0`. -/
lemma evalNM_thr : thresholds_of [pN, pM] = (3, 1, 0) := by
  unfold thresholds_of
  rw [evalNM_sizes]
  norm_num [computeThresholds, sortedUnique, dedupFirst,
    List.insertionSort, List.orderedInsert]

/-- The short numeric paragraph `pN` is initially forced to `p` by the
guard. -/
lemma evalNM_assignN : assign_enhanced_level [pN, pM] pN = "p" := by
  have e1' := evalNM_title
  have e3' := evalNM_thr
  simp only [pN, pM, basePara] at e1' e3' ⊢
  have hf1 : pyIsDigit "7" = true := by decide
  have hf3 : (pyStrip "7").length = 1 := by decide
  norm_num [assign_enhanced_level, e1', e3', score_level, text_len, hf1, hf3]

/-- The body paragraph `pM` scores 17 and is labeled `p`. -/
lemma evalNM_assignM : assign_enhanced_level [pN, pM] pM = "p" := by
  have e1' := evalNM_title
  have e3' := evalNM_thr
  simp only [pN, pM, basePara] at e1' e3' ⊢
  have hf1 : pyIsDigit "some body text here" = false := by decide
  have hf2 : hasAlpha "some body text here" = true := by decide
  have hf3 : (pyStrip "some body text here").length = 19 := by decide
  have hpl : pyLower "" = "" := by decide
  have hb1 : strContains "" "bold" = false := by decide
  have hb2 : strContains "" "heading" = false := by decide
  have hb3 : strContains "" "heavy" = false := by decide
  have hb4 : strContains "" "black" = false := by decide
  have hb5 : strContains "" "arial" = false := by decide
  have hb6 : strContains "" "helvetica" = false := by decide
  have hlu : pyLower "unknown" = "unknown" := by decide
  have c1 : ¬ (("Mixed" : String) = "UPPER") := by decide
  have c2 : ¬ (("Mixed" : String) = "Title") := by decide
  have c3 : ¬ (("unknown" : String) = "center") := by decide
  have c4 : ¬ (("unknown" : String) = "left") := by decide
  norm_num [assign_enhanced_level, e1', e3', score_level, calculate_header_score,
    text_len, font_family_of, has_bold_family, hf1, hf2, hf3, hpl, hb1, hb2,
    hb3, hb4, hb5, hb6, hlu, c1, c2, c3, c4]

/-- Full labeling of `[pN, pM]`: the lookahead pass promotes the bold
numeric paragraph to `H3` and the repair pass rewrites it to `H1`. -/
lemma evalNM_label : label_document_hierarchy [pN, pM] = [⟨pN, "H1"⟩, ⟨pM, "p"⟩] := by
  have e2' := evalNM_sizes
  have e3' := evalNM_thr
  have e4a' := evalNM_assignN
  have e4b' := evalNM_assignM
  simp only [pN, pM, basePara] at e2' e3' e4a' e4b' ⊢
  norm_num [label_document_hierarchy, initial_labeling, e2', e3', e4a', e4b',
    lookahead_promote, promote_cond, ensure_logical_hierarchy, repairGo, ensure_step]
  simp

/-- The projected outline of `[pN, pM]` contains the numeric paragraph as an
`H1` heading. -/
lemma evalNM_outline : process_document [pN, pM] = ⟨"", [⟨"H1", "7", 1⟩]⟩ := by
  have e5' := evalNM_label
  simp only [pN, pM, basePara] at e5' ⊢
  rw [process_document, e5']
  decide

/-- Witness for C8: the theorem applied to the concrete document `[pN, pM]`,
whose outline contains the entry `{H1, "7", 1}`. -/
theorem pipeline_total_and_valid_witness :
    ((⟨"H1", "7", 1⟩ : OutlineEntry).level = "H1" ∨
      (⟨"H1", "7", 1⟩ : OutlineEntry).level = "H2" ∨
      (⟨"H1", "7", 1⟩ : OutlineEntry).level = "H3") ∧
    (⟨"H1", "7", 1⟩ : OutlineEntry).text ≠ "" :=
  pipeline_total_and_valid.2 [pN, pM] ⟨"H1", "7", 1⟩ (by rw [evalNM_outline]; decide)

/-! ### Guard against numeric and over-long headings (claim C6) -/

/-- The guard inside the score classification: a short numeric or
non-alphabetic text, or a text longer than 350, is classified `p`. -/
lemma score_level_guard (thr : ℚ × ℚ × ℚ) (o : Para)
    (h : (text_len o ≤ 3 ∧ (pyIsDigit o.text = true ∨ ¬ hasAlpha o.text = true)) ∨
      350 < text_len o) :
    score_level thr o = "p" := by
  unfold score_level
  rcases h with h | h
  · rw [if_pos h]
  · by_cases h1 : text_len o ≤ 3 ∧ (pyIsDigit o.text = true ∨ ¬ hasAlpha o.text = true)
    · rw [if_pos h1]
    · rw [if_neg h1, if_pos h]

/-- C6 (amended): a paragraph whose stripped text has length at most 3 and
is purely numeric or has no alphabetic character, or whose text length
exceeds 350, is never assigned `H1`, `H2` or `H3` by the per-paragraph
scoring pass; the lookahead pass can still promote such a bold paragraph. -/
theorem numeric_guard_no_initial_heading (objs : List Para) (o : Para)
    (h : (text_len o ≤ 3 ∧ (pyIsDigit o.text = true ∨ ¬ hasAlpha o.text = true)) ∨
      350 < text_len o) :
    assign_enhanced_level objs o ≠ "H1" ∧
    assign_enhanced_level objs o ≠ "H2" ∧
    assign_enhanced_level objs o ≠ "H3" := by
  unfold assign_enhanced_level
  rcases htc : title_candidate objs with _ | t
  · simp only [htc]
    rw [score_level_guard _ o h]
    exact ⟨by decide, by decide, by decide⟩
  · simp only [htc]
    by_cases he : o = t
    · rw [if_pos he]
      exact ⟨by decide, by decide, by decide⟩
    · rw [if_neg he]
      by_cases hp : o.page_num = lowest_page_num objs ∧
          o.relative_font_size < title_max_font_size objs
      · rw [if_pos hp]
        exact ⟨by decide, by decide, by decide⟩
      · rw [if_neg hp, score_level_guard _ o h]
        exact ⟨by decide, by decide, by decide⟩

/-- Witness for the amended C6 at the concrete record `pN`. -/
theorem numeric_guard_no_initial_heading_witness :
    assign_enhanced_level [pN, pM] pN ≠ "H1" ∧
    assign_enhanced_level [pN, pM] pN ≠ "H2" ∧
    assign_enhanced_level [pN, pM] pN ≠ "H3" :=
  numeric_guard_no_initial_heading [pN, pM] pN (Or.inl (by decide))

/-- Counterexample to C6 as stated: the short numeric bold paragraph `pN`
(text `"7"`) satisfies the guard, yet the final output labels it `H1` —
the lookahead-promotion pass promotes it and the repair pass raises it. -/
theorem numeric_guard_cex :
    (text_len pN ≤ 3 ∧ (pyIsDigit pN.text = true ∨ ¬ hasAlpha pN.text = true)) ∧
    (label_document_hierarchy [pN, pM]).map (fun x => x.level) = ["H1", "p"] := by
  constructor
  · exact ⟨by decide, Or.inl (by decide)⟩
  · rw [evalNM_label]
    rfl

/-! ### Paragraph grouping: merge rule (claim C1) and partition (claim C7) -/

/-- The chunking loop emits exactly the lines it was given: the flattened
groups are the open paragraph (reversed) followed by the remaining input. -/
lemma chunkGo_flatten (thr : ℚ) :
    ∀ (ls cur : List Line) (prev : Line),
    (chunkGo thr cur prev ls).flatten = cur.reverse ++ ls
  | [], cur, prev => by simp [chunkGo]
  | c :: rest, cur, prev => by
    unfold chunkGo
    by_cases h : shouldMerge thr prev c = true
    · rw [if_pos h, chunkGo_flatten thr rest (c :: cur) c]
      simp
    · rw [if_neg h]
      simp [chunkGo_flatten thr rest [c] c]

/-- The groups formed by chunking cover the input exactly. -/
lemma chunkLines_flatten (thr : ℚ) (ls : List Line) :
    (chunkLines thr ls).flatten = ls := by
  cases ls with
  | nil => rfl
  | cons l rest => simpa [chunkLines] using chunkGo_flatten thr rest [l] l

/-- Every group produced by the chunking loop is nonempty and is a chain
under the merge relation (each line merges with its predecessor). -/
lemma chunkGo_chain (thr : ℚ) :
    ∀ (ls cur : List Line) (prev : Line), cur.head? = some prev →
    List.Chain' (fun a b => shouldMerge thr b a = true) cur →
    ∀ g ∈ chunkGo thr cur prev ls,
      g ≠ [] ∧ List.Chain' (fun a b => shouldMerge thr a b = true) g
  | [], cur, prev => by
    intro hh hc g hg
    simp only [chunkGo, List.mem_singleton] at hg
    subst hg
    refine ⟨by simp; rintro rfl; simp at hh, ?_⟩
    rw [List.chain'_reverse]
    exact hc
  | c :: rest, cur, prev => by
    intro hh hc g hg
    unfold chunkGo at hg
    by_cases h : shouldMerge thr prev c = true
    · rw [if_pos h] at hg
      refine chunkGo_chain thr rest (c :: cur) c rfl ?_ g hg
      refine List.chain'_cons'.mpr ⟨?_, hc⟩
      intro y hy
      rw [hh] at hy
      cases hy
      exact h
    · rw [if_neg h] at hg
      rcases List.mem_cons.mp hg with rfl | hg'
      · refine ⟨by simp; rintro rfl; simp at hh, ?_⟩
        rw [List.chain'_reverse]
        exact hc
      · exact chunkGo_chain thr rest [c] c rfl (List.chain'_singleton c) g hg'

/-- The first group of the chunking loop extends the reversed open
paragraph. -/
lemma chunkGo_first (thr : ℚ) :
    ∀ (ls cur : List Line) (prev : Line),
    ∃ t gs, chunkGo thr cur prev ls = (cur.reverse ++ t) :: gs
  | [], cur, prev => ⟨[], [], by simp [chunkGo]⟩
  | c :: rest, cur, prev => by
    unfold chunkGo
    by_cases h : shouldMerge thr prev c = true
    · rw [if_pos h]
      obtain ⟨t, gs, ht⟩ := chunkGo_first thr rest (c :: cur) c
      exact ⟨c :: t, gs, by simpa using ht⟩
    · rw [if_neg h]
      exact ⟨[], chunkGo thr [c] c rest, by simp⟩

/-- Consecutive groups never merge: the last line of a group and the first
line of the next group fail the merge test. -/
lemma chunkGo_boundary (thr : ℚ) :
    ∀ (ls cur : List Line) (prev : Line), cur.head? = some prev →
    List.Chain' (fun g1 g2 => ∀ a b, g1.getLast? = some a → g2.head? = some b →
      shouldMerge thr a b = false) (chunkGo thr cur prev ls)
  | [], cur, prev => by
    intro hh
    simp [chunkGo]
  | c :: rest, cur, prev => by
    intro hh
    unfold chunkGo
    by_cases h : shouldMerge thr prev c = true
    · rw [if_pos h]
      exact chunkGo_boundary thr rest (c :: cur) c rfl
    · rw [if_neg h]
      refine List.chain'_cons'.mpr ⟨?_, chunkGo_boundary thr rest [c] c rfl⟩
      intro g2 hg2 a b ha hb
      obtain ⟨t, gs, ht⟩ := chunkGo_first thr rest [c] c
      simp only [ht, List.head?_cons, Option.mem_def, Option.some.injEq] at hg2
      subst hg2
      simp only [List.reverse_singleton, List.singleton_append, List.head?_cons,
        Option.some.injEq] at hb
      rw [List.getLast?_reverse, hh] at ha
      cases ha
      cases hb
      exact Bool.not_eq_true _ ▸ h

/-- C1: the groups the strict grouping loop forms over an ordered list of
line records are exactly the maximal runs in which every line merges with
the previous line; two adjacent lines belong to the same group iff the five
conditions hold (same page, spacing `max(0, curr.y0 - prev.y1)` below the
threshold, equal normalized font size — the font size rounded to the
nearest 0.5 class — equal bold flag, intersecting font-name sets), and the
line opening each new group fails the test against the previous group's
last line. -/
theorem grouping_merge_iff (thr : ℚ) (ls : List Line)
    (hnorm : ∀ l ∈ ls, l.normalized_font_size = normalize_font_size l.font_size) :
    ((chunkLines thr ls).flatten = ls) ∧
    (∀ g ∈ chunkLines thr ls,
      g ≠ [] ∧ List.Chain' (fun a b => shouldMerge thr a b = true) g) ∧
    (List.Chain' (fun g1 g2 => ∀ a b, g1.getLast? = some a → g2.head? = some b →
      shouldMerge thr a b = false) (chunkLines thr ls)) ∧
    (∀ p ∈ ls, ∀ c ∈ ls, (shouldMerge thr p c = true ↔
      (c.page_num = p.page_num ∧ max 0 (c.y0 - p.y1) < thr ∧
        normalize_font_size c.font_size = normalize_font_size p.font_size ∧
        c.is_bold = p.is_bold ∧ ∃ n ∈ c.font_names, n ∈ p.font_names))) := by
  refine ⟨chunkLines_flatten thr ls, ?_, ?_, ?_⟩
  · cases ls with
    | nil => intro g hg; simp [chunkLines] at hg
    | cons l rest =>
      exact chunkGo_chain thr rest [l] l rfl (List.chain'_singleton l)
  · cases ls with
    | nil => simp [chunkLines]
    | cons l rest => exact chunkGo_boundary thr rest [l] l rfl
  · intro p hp c hc
    rw [← hnorm p hp, ← hnorm c hc]
    simp only [shouldMerge, Bool.and_eq_true, decide_eq_true_eq, List.any_eq_true,
      List.elem_iff]
    tauto

/-- Witness for C1 on three concrete lines (5 points gap merges, 25 points
gap splits): the groups cover the input. -/
theorem grouping_merge_iff_witness :
    (chunkLines 15 [wl1, wl2, wl3]).flatten = [wl1, wl2, wl3] :=
  (grouping_merge_iff 15 [wl1, wl2, wl3] (by
    intro l hl
    fin_cases hl <;>
      norm_num [wl1, wl2, wl3, baseLine, normalize_font_size, pyRound])).1

/-- Dropping the spacing annotations recovers the lines. -/
lemma annotateGo_map_fst (prev : Line) :
    ∀ (ls : List Line), (annotateGo prev ls).map Prod.fst = ls
  | [] => rfl
  | c :: rest => by simp [annotateGo, annotateGo_map_fst c rest]

/-- The spacing annotation leaves the line sequence unchanged. -/
lemma annotate_map_fst (ls : List Line) :
    (annotateSpacing ls).map Prod.fst = ls := by
  cases ls with
  | nil => rfl
  | cons l rest => simp [annotateSpacing, annotateGo_map_fst]

/-- Chunking annotated lines and then dropping the annotations is chunking
the plain lines: the merge test ignores the annotation. -/
lemma chunkGoA_proj (thr : ℚ) :
    ∀ (as cur : List ALine) (prev : Line),
    (chunkGoA thr cur prev as).map (List.map Prod.fst) =
      chunkGo thr (cur.map Prod.fst) prev (as.map Prod.fst)
  | [], cur, prev => by simp [chunkGoA, chunkGo]
  | c :: rest, cur, prev => by
    simp only [List.map_cons, chunkGoA, chunkGo]
    by_cases h : shouldMerge thr prev c.1 = true
    · rw [if_pos h, if_pos h, chunkGoA_proj thr rest (c :: cur) c.1]
      rfl
    · rw [if_neg h, if_neg h]
      simp [chunkGoA_proj thr rest [c] c.1]

/-- Projection of annotated chunking to plain chunking. -/
lemma chunkA_proj (thr : ℚ) (as : List ALine) :
    (chunkA thr as).map (List.map Prod.fst) = chunkLines thr (as.map Prod.fst) := by
  cases as with
  | nil => rfl
  | cons c rest => simpa [chunkA, chunkLines] using chunkGoA_proj thr rest [c] c.1

/-- `aggregate_paragraph` returns `none` exactly when the space-joined
nonempty member texts strip to the empty string. -/
lemma aggregate_none_iff (g : List ALine) :
    aggregate_paragraph g = none ↔
    pyStrip (joinSpace ((g.map (fun l => l.1.text)).filter (fun t => t ≠ ""))) = "" := by
  have he : pyStrip (joinSpace []) = "" := by decide
  cases g with
  | nil => simp [aggregate_paragraph, he]
  | cons l0 rest =>
    simp only [aggregate_paragraph]
    split_ifs with h1 h2
    · exact iff_of_true rfl (by rw [h1]; exact he)
    · exact iff_of_true rfl h2
    · exact iff_of_false (by simp) h2

/-- C7: grouping partitions the input lines — the chunk groups flatten back
to the sorted input, which is a permutation of the input; the produced
paragraph records are the per-group aggregates; and a group produces no
record exactly when its combined text strips to the empty string (so every
line belongs to exactly one group, and only all-whitespace groups are
dropped). -/
theorem grouping_partitions (thr : ℚ) (ls : List Line) :
    ((chunkLines thr (sortLines ls)).flatten = sortLines ls) ∧
    ((sortLines ls).Perm ls) ∧
    ((chunkA thr (annotateSpacing (sortLines ls))).map (List.map Prod.fst) =
      chunkLines thr (sortLines ls)) ∧
    (group_into_paragraphs_strict thr ls =
      (chunkA thr (annotateSpacing (sortLines ls))).filterMap aggregate_paragraph) ∧
    (∀ g : List ALine, aggregate_paragraph g = none ↔
      pyStrip (joinSpace ((g.map (fun l => l.1.text)).filter (fun t => t ≠ ""))) = "") := by
  refine ⟨chunkLines_flatten thr _, List.perm_insertionSort lineLe ls, ?_, rfl,
    aggregate_none_iff⟩
  rw [chunkA_proj, annotate_map_fst]

/-! ### Threshold derivation (claim C3) -/

/-- C3: the threshold collection is the relative font sizes of the records
that are positive and not equal to the title candidate; with at least 4
collected values the thresholds are the 90th/75th/60th percentiles, and
otherwise the distinct descending sizes padded with zeros (top three if at
least 3 distinct, two and `h3 = 0` if exactly 2, one and `h2 = h3 = 0` if
exactly 1, all zeros if none). -/
theorem threshold_derivation (objs : List Para) :
    (label_font_sizes objs =
      (objs.filter (fun o => (0 < o.relative_font_size : Bool) &&
        (match title_candidate objs with
         | none => true
         | some t => (o ≠ t : Bool)))).map (fun o => o.relative_font_size)) ∧
    (4 ≤ (label_font_sizes objs).length →
      thresholds_of objs =
        (npPercentile (label_font_sizes objs) 90,
         npPercentile (label_font_sizes objs) 75,
         npPercentile (label_font_sizes objs) 60)) ∧
    ((label_font_sizes objs).length < 4 →
      (∀ a b c r, (sortedUnique (label_font_sizes objs)).reverse = a :: b :: c :: r →
        thresholds_of objs = (a, b, c)) ∧
      (∀ a b, (sortedUnique (label_font_sizes objs)).reverse = [a, b] →
        thresholds_of objs = (a, b, 0)) ∧
      (∀ a, (sortedUnique (label_font_sizes objs)).reverse = [a] →
        thresholds_of objs = (a, 0, 0)) ∧
      ((sortedUnique (label_font_sizes objs)).reverse = [] →
        thresholds_of objs = (0, 0, 0))) := by
  refine ⟨rfl, ?_, ?_⟩
  · intro h4
    unfold thresholds_of computeThresholds
    rw [if_pos h4]
  · intro h4
    have hn : ¬ 4 ≤ (label_font_sizes objs).length := not_le.mpr h4
    refine ⟨?_, ?_, ?_, ?_⟩
    · intro a b c r heq
      unfold thresholds_of computeThresholds
      rw [if_neg hn, heq]
    · intro a b heq
      unfold thresholds_of computeThresholds
      rw [if_neg hn, heq]
    · intro a heq
      unfold thresholds_of computeThresholds
      rw [if_neg hn, heq]
    · intro heq
      unfold thresholds_of computeThresholds
      rw [if_neg hn, heq]

/-- Witness for C3 on the four-value document `w4`: the percentile branch
fires. -/
theorem threshold_derivation_witness :
    thresholds_of w4 =
      (npPercentile (label_font_sizes w4) 90,
       npPercentile (label_font_sizes w4) 75,
       npPercentile (label_font_sizes w4) 60) :=
  (threshold_derivation w4).2.1 (by decide)

/-! ### Font rank builder (claim C4) -/

/-- The deduplication fold preserves `Nodup` of the accumulator. -/
lemma dedupFirst_aux_nodup {α} [DecidableEq α] :
    ∀ (l acc : List α), acc.Nodup →
    (l.foldl (fun acc x => if x ∈ acc then acc else acc ++ [x]) acc).Nodup
  | [], _, h => h
  | x :: rest, acc, h => by
    simp only [List.foldl]
    by_cases hx : x ∈ acc
    · rw [if_pos hx]
      exact dedupFirst_aux_nodup rest acc h
    · rw [if_neg hx]
      refine dedupFirst_aux_nodup rest (acc ++ [x]) ?_
      rw [List.nodup_append]
      exact ⟨h, List.nodup_singleton x, by
        intro a ha hax
        rw [List.mem_singleton] at hax
        exact hx (hax ▸ ha)⟩

/-- Membership through the deduplication fold. -/
lemma dedupFirst_aux_mem {α} [DecidableEq α] :
    ∀ (l acc : List α) (y : α),
    (y ∈ l.foldl (fun acc x => if x ∈ acc then acc else acc ++ [x]) acc) ↔
      y ∈ acc ∨ y ∈ l
  | [], acc, y => by simp
  | x :: rest, acc, y => by
    simp only [List.foldl]
    by_cases hx : x ∈ acc
    · rw [if_pos hx, dedupFirst_aux_mem rest acc y]
      constructor
      · rintro (h | h)
        · exact Or.inl h
        · exact Or.inr (List.mem_cons_of_mem x h)
      · rintro (h | h)
        · exact Or.inl h
        · rcases List.mem_cons.mp h with rfl | h'
          · exact Or.inl hx
          · exact Or.inr h'
    · rw [if_neg hx, dedupFirst_aux_mem rest (acc ++ [x]) y]
      simp only [List.mem_append, List.mem_singleton, List.mem_cons]
      tauto

/-- `dedupFirst` removes duplicates. -/
lemma dedupFirst_nodup {α} [DecidableEq α] (l : List α) : (dedupFirst l).Nodup :=
  dedupFirst_aux_nodup l [] List.nodup_nil

/-- `dedupFirst` preserves membership. -/
lemma mem_dedupFirst {α} [DecidableEq α] (l : List α) (y : α) :
    y ∈ dedupFirst l ↔ y ∈ l := by
  rw [dedupFirst, dedupFirst_aux_mem]
  simp

/-- `sorted(set(l))` is strictly increasing. -/
lemma sortedUnique_pairwise (l : List ℚ) :
    List.Pairwise (· < ·) (sortedUnique l) := by
  have hs : (sortedUnique l).Sorted (· ≤ ·) :=
    List.sorted_insertionSort (· ≤ ·) (dedupFirst l)
  have hn : (sortedUnique l).Nodup :=
    ((List.perm_insertionSort (· ≤ ·) (dedupFirst l)).nodup_iff).mpr (dedupFirst_nodup l)
  exact (hs.and hn).imp (fun h => lt_of_le_of_ne h.1 h.2)

/-- `sorted(set(l))` has the same members as `l`. -/
lemma mem_sortedUnique (l : List ℚ) (y : ℚ) : y ∈ sortedUnique l ↔ y ∈ l := by
  rw [sortedUnique, (List.perm_insertionSort (· ≤ ·) (dedupFirst l)).mem_iff,
    mem_dedupFirst]

/-- The keys of the enumerated rank pairs are the enumerated list. -/
lemma rankPairs_map_fst : ∀ (u : List ℚ) (n : ℕ), (rankPairsFrom n u).map Prod.fst = u
  | [], _ => rfl
  | x :: rest, n => by simp [rankPairsFrom, rankPairs_map_fst rest (n + 1)]

/-- A present key is found with an index at least the starting index. -/
lemma find_rankPairs :
    ∀ (u : List ℚ) (n : ℕ) (k : ℚ), k ∈ u →
    ∃ m, n ≤ m ∧
      (rankPairsFrom n u).find? (fun p => (p.1 = k : Bool)) = some (k, m)
  | [], _, k, hk => absurd hk (List.not_mem_nil k)
  | x :: rest, n, k, hk => by
    by_cases he : x = k
    · subst he
      exact ⟨n, le_refl n, by simp [rankPairsFrom, List.find?]⟩
    · have hk' : k ∈ rest := (List.mem_cons.mp hk).resolve_left (fun e => he e.symm)
      obtain ⟨m, hm, hf⟩ := find_rankPairs rest (n + 1) k hk'
      refine ⟨m, by omega, ?_⟩
      rw [rankPairsFrom, List.find?]
      simp only [decide_eq_true_eq, he, decide_False]
      exact hf

/-- The rank of the first key. -/
lemma rank_of_head (n : ℕ) (k : ℚ) (rest : List ℚ) :
    rank_of (rankPairsFrom n (k :: rest)) k = n := by
  simp [rank_of, rankPairsFrom, List.find?]

/-- Strict monotonicity of the rank lookup on a strictly sorted key list. -/
lemma rank_of_mono :
    ∀ (u : List ℚ) (n : ℕ) (a b : ℚ), List.Pairwise (· < ·) u →
    a ∈ u → b ∈ u → a < b →
    rank_of (rankPairsFrom n u) a < rank_of (rankPairsFrom n u) b
  | [], _, a, _, _, ha, _, _ => absurd ha (List.not_mem_nil a)
  | x :: rest, n, a, b, hp, ha, hb, hab => by
    have hpx : ∀ y ∈ rest, x < y := (List.pairwise_cons.mp hp).1
    have hpr := (List.pairwise_cons.mp hp).2
    by_cases hax : a = x
    · have hb_rest : b ∈ rest := by
        rcases List.mem_cons.mp hb with rfl | h
        · rw [hax] at hab
          exact absurd hab (lt_irrefl _)
        · exact h
      obtain ⟨m, hm, hf⟩ := find_rankPairs rest (n + 1) b hb_rest
      have hxb : ¬ (x = b) := ne_of_lt (hpx b hb_rest)
      have hrb : rank_of (rankPairsFrom n (x :: rest)) b = m := by
        rw [rank_of, rankPairsFrom, List.find?]
        simp only [decide_eq_true_eq, hxb, decide_False]
        rw [hf]
        rfl
      have hra : rank_of (rankPairsFrom n (x :: rest)) a = n := by
        rw [hax]
        exact rank_of_head n x rest
      rw [hra, hrb]
      omega
    · have ha_rest : a ∈ rest := (List.mem_cons.mp ha).resolve_left hax
      have hb_rest : b ∈ rest := by
        rcases List.mem_cons.mp hb with rfl | h
        · exact absurd (hpx a ha_rest) (not_lt.mpr (le_of_lt hab))
        · exact h
      have hxa : ¬ (x = a) := fun e => hax e.symm
      have hxb : ¬ (x = b) := ne_of_lt (hpx b hb_rest)
      have hrec := rank_of_mono rest (n + 1) a b hpr ha_rest hb_rest hab
      rw [rank_of, rank_of, rankPairsFrom, List.find?, List.find?]
      simp only [decide_eq_true_eq, hxa, hxb, decide_False]
      exact hrec

/-- An absent key gets the default rank 0. -/
lemma rank_of_absent (ranks : List (ℚ × ℕ)) (fs : ℚ)
    (h : ∀ p ∈ ranks, p.1 ≠ fs) : rank_of ranks fs = 0 := by
  have hf : ranks.find? (fun p => (p.1 = fs : Bool)) = none := by
    rw [List.find?_eq_none]
    intro p hp
    simp [h p hp]
  rw [rank_of, hf]
  rfl

/-- The least key of a strictly sorted enumeration gets the starting rank. -/
lemma rank_of_least :
    ∀ (u : List ℚ) (n : ℕ) (k : ℚ), List.Pairwise (· < ·) u →
    k ∈ u → (∀ k2 ∈ u, k ≤ k2) →
    rank_of (rankPairsFrom n u) k = n
  | [], _, k, _, hk, _ => absurd hk (List.not_mem_nil k)
  | x :: rest, n, k, hp, hk, hleast => by
    rcases List.mem_cons.mp hk with rfl | hk'
    · exact rank_of_head n k rest
    · have hxk : x < k := (List.pairwise_cons.mp hp).1 k hk'
      exact absurd (hleast x (List.mem_cons_self x rest)) (not_le.mpr hxk)

/-- C4 (amended): the rank mapping is strictly monotone on its keys (the
2-decimal roundings of the input sizes); every input size's rounding is a
key; the least key has rank 0; the empty input yields the empty mapping;
and any font size absent from the mapping — in particular a paragraph's
`avg_font_size` during enrichment — receives rank 0. -/
theorem font_rank_monotone (sizes : List ℚ) :
    (build_relative_font_ranks [] = []) ∧
    (∀ s ∈ sizes, pyRound2 s ∈ (build_relative_font_ranks sizes).map Prod.fst) ∧
    (∀ a ∈ (build_relative_font_ranks sizes).map Prod.fst,
      ∀ b ∈ (build_relative_font_ranks sizes).map Prod.fst,
      a < b →
        rank_of (build_relative_font_ranks sizes) a <
        rank_of (build_relative_font_ranks sizes) b) ∧
    (∀ k ∈ (build_relative_font_ranks sizes).map Prod.fst,
      (∀ k2 ∈ (build_relative_font_ranks sizes).map Prod.fst, k ≤ k2) →
      rank_of (build_relative_font_ranks sizes) k = 0) ∧
    (∀ fs : ℚ, fs ∉ (build_relative_font_ranks sizes).map Prod.fst →
      rank_of (build_relative_font_ranks sizes) fs = 0) ∧
    (∀ (ranks : List (ℚ × ℕ)) (p : Para), p.avg_font_size ∉ ranks.map Prod.fst →
      (add_relative_font_size ranks p).relative_font_size = 0) := by
  have habs : ∀ (ranks : List (ℚ × ℕ)) (fs : ℚ), fs ∉ ranks.map Prod.fst →
      rank_of ranks fs = 0 := by
    intro ranks fs h
    refine rank_of_absent ranks fs (fun p hp he => h ?_)
    exact he ▸ List.mem_map_of_mem Prod.fst hp
  by_cases hz : sizes = []
  · subst hz
    refine ⟨rfl, by simp, ?_, ?_, ?_, ?_⟩
    · intro a ha
      simp [build_relative_font_ranks] at ha
    · intro k hk
      simp [build_relative_font_ranks] at hk
    · intro fs hfs
      exact habs _ fs hfs
    · intro ranks p h
      simp [add_relative_font_size, habs ranks p.avg_font_size h]
  · have hbu : build_relative_font_ranks sizes =
        rankPairsFrom 0 (sortedUnique ((sortedUnique sizes).map pyRound2)) := by
      rw [build_relative_font_ranks, if_neg hz]
    have hkeys : (build_relative_font_ranks sizes).map Prod.fst =
        sortedUnique ((sortedUnique sizes).map pyRound2) := by
      rw [hbu, rankPairs_map_fst]
    have hpw := sortedUnique_pairwise ((sortedUnique sizes).map pyRound2)
    refine ⟨rfl, ?_, ?_, ?_, ?_, ?_⟩
    · intro s hs
      rw [hkeys, mem_sortedUnique]
      exact List.mem_map_of_mem pyRound2 ((mem_sortedUnique sizes s).mpr hs)
    · intro a ha b hb hab
      rw [hkeys] at ha hb
      rw [hbu]
      exact rank_of_mono _ 0 a b hpw ha hb hab
    · intro k hk hleast
      rw [hkeys] at hk
      rw [hbu]
      refine rank_of_least _ 0 k hpw hk ?_
      intro k2 hk2
      exact hleast k2 (by rw [hkeys]; exact hk2)
    · intro fs hfs
      exact habs _ fs hfs
    · intro ranks p h
      simp [add_relative_font_size, habs ranks p.avg_font_size h]

/-- Witness for the amended C4: ranks of the keys 1 < 2 from the input
`[2, 1]`. -/
theorem font_rank_monotone_witness :
    rank_of (build_relative_font_ranks [2, 1]) 1 <
    rank_of (build_relative_font_ranks [2, 1]) 2 := by
  have hb : build_relative_font_ranks [2, 1] = [(1, 0), (2, 1)] := by
    rw [build_relative_font_ranks, if_neg (by simp)]
    norm_num [sortedUnique, dedupFirst,
      List.insertionSort, List.orderedInsert, pyRound2, pyRound, rankPairsFrom]
  refine (font_rank_monotone [2, 1]).2.2.1 1 ?_ 2 ?_ (by norm_num)
  · rw [hb]; norm_num
  · rw [hb]; norm_num

/-- Counterexample to C4 as stated: the sizes 10.001 < 10.002 are both
present in the document, but both round to the same 2-decimal key, so
neither is a key of the mapping and both look-ups return the default 0 —
`rank(a) < rank(b)` fails. -/
theorem font_rank_monotone_cex :
    ((10001/1000 : ℚ) ∈ ([10001/1000, 10002/1000] : List ℚ)) ∧
    ((10002/1000 : ℚ) ∈ ([10001/1000, 10002/1000] : List ℚ)) ∧
    ((10001/1000 : ℚ) < 10002/1000) ∧
    ¬ (rank_of (build_relative_font_ranks [10001/1000, 10002/1000]) (10001/1000) <
       rank_of (build_relative_font_ranks [10001/1000, 10002/1000]) (10002/1000)) := by
  refine ⟨by norm_num, by norm_num, by norm_num, ?_⟩
  have hb : build_relative_font_ranks [10001/1000, 10002/1000] = [(10, 0)] := by
    rw [build_relative_font_ranks, if_neg (by simp)]
    norm_num [sortedUnique, dedupFirst,
      List.insertionSort, List.orderedInsert, pyRound2, pyRound, rankPairsFrom]
  rw [hb]
  norm_num [rank_of, List.find?]

/-! ### Title exclusivity (claim C5) and synthetic title loss (claim C10) -/

/-- The score classification never yields the label `title`. -/
lemma score_level_ne_title (thr : ℚ × ℚ × ℚ) (o : Para) :
    score_level thr o ≠ "title" := by
  simp only [score_level]
  split_ifs <;> decide

/-- The initial assignment yields `title` only for records equal to the
synthetic title candidate. -/
lemma assign_title_eq (objs : List Para) (o : Para)
    (h : assign_enhanced_level objs o = "title") :
    ∃ t, title_candidate objs = some t ∧ o = t := by
  unfold assign_enhanced_level at h
  rcases htc : title_candidate objs with _ | t
  · simp only [htc] at h
    exact absurd h (score_level_ne_title _ o)
  · simp only [htc] at h
    by_cases he : o = t
    · exact ⟨t, rfl, he⟩
    · rw [if_neg he] at h
      by_cases hp : o.page_num = lowest_page_num objs ∧
          o.relative_font_size < title_max_font_size objs
      · rw [if_pos hp] at h
        simp at h
      · rw [if_neg hp] at h
        exact absurd h (score_level_ne_title _ o)

/-- A `title`-labeled record survives the lookahead pass untouched. -/
lemma lookahead_title (h3 : ℚ) :
    ∀ (l : List LPara) (x : LPara), x ∈ lookahead_promote h3 l →
    x.level = "title" → x ∈ l
  | [], x, hx, _ => absurd hx (List.not_mem_nil x)
  | [x0], x, hx, _ => by simpa [lookahead_promote] using hx
  | x0 :: y :: rest, x, hx, ht => by
    rw [lookahead_promote] at hx
    rcases List.mem_cons.mp hx with rfl | hx'
    · by_cases hc : promote_cond h3 x0 y = true
      · rw [if_pos hc] at ht
        simp at ht
      · rw [if_neg hc]
        exact List.mem_cons_self _ _
    · exact List.mem_cons_of_mem x0 (lookahead_title h3 (y :: rest) x hx' ht)

/-- A repair step emits `title` only for an incoming `title`. -/
lemma ensure_step_out_title (seen : Bool × Bool × Bool) (lv : String)
    (h : (ensure_step seen lv).2 = "title") : lv = "title" := by
  obtain ⟨st, s1, s2⟩ := seen
  unfold ensure_step at h
  cases s1 <;> cases s2 <;> split_ifs at h <;> simp_all

/-- A `title`-labeled output of the repair scan stems from a `title`-labeled
input with the same paragraph record. -/
lemma repairGo_title :
    ∀ (l : List LPara) (seen : Bool × Bool × Bool) (x : LPara),
    x ∈ repairGo seen l → x.level = "title" →
    ∃ y ∈ l, y.level = "title" ∧ y.para = x.para
  | [], _, x, hx, _ => absurd hx (List.not_mem_nil x)
  | z :: rest, seen, x, hx, ht => by
    rw [repairGo] at hx
    rcases List.mem_cons.mp hx with rfl | hx'
    · refine ⟨z, List.mem_cons_self z rest, ?_, rfl⟩
      exact ensure_step_out_title seen z.level ht
    · obtain ⟨y, hy, hyt, hyp⟩ := repairGo_title rest (ensure_step seen z.level).1 x hx' ht
      exact ⟨y, List.mem_cons_of_mem z hy, hyt, hyp⟩

/-- Any `title`-labeled record of the final labeling equals the synthetic
title candidate. -/
lemma label_title_eq (objs : List Para) (x : LPara)
    (hx : x ∈ label_document_hierarchy objs) (ht : x.level = "title") :
    ∃ t, title_candidate objs = some t ∧ x.para = t := by
  unfold label_document_hierarchy at hx
  split_ifs at hx with h1 h2
  · cases hx
  · obtain ⟨o, _, rfl⟩ := List.mem_map.mp hx
    rcases htc : title_candidate objs with _ | t
    · simp only [htc] at ht
      simp at ht
    · simp only [htc] at ht
      by_cases he : o = t
      · exact ⟨t, rfl, he⟩
      · rw [if_neg he] at ht
        simp at ht
  · rw [ensure_logical_hierarchy] at hx
    obtain ⟨y, hy, hyt, hyp⟩ := repairGo_title _ _ x hx ht
    have hy' := lookahead_title _ _ y hy hyt
    obtain ⟨o, _, rfl⟩ := List.mem_map.mp hy'
    obtain ⟨t2, htc2, heq⟩ := assign_title_eq objs o hyt
    refine ⟨t2, htc2, ?_⟩
    rw [← hyp]
    exact heq

/-- Every member of every cluster comes from the maximal-font candidates. -/
lemma addToClusters_sub (objs : List Para)
    (cs : List ((ℚ × List String × Bool) × List Para)) (o : Para)
    (hcs : ∀ kc ∈ cs, ∀ p ∈ kc.2, p ∈ max_font_objs objs)
    (ho : o ∈ max_font_objs objs) :
    ∀ kc ∈ addToClusters cs o, ∀ p ∈ kc.2, p ∈ max_font_objs objs := by
  induction cs with
  | nil =>
    intro kc hkc p hp
    simp only [addToClusters, List.mem_singleton] at hkc
    subst hkc
    simp only [List.mem_singleton] at hp
    exact hp ▸ ho
  | cons kc0 rest ih =>
    intro kc hkc p hp
    rw [addToClusters] at hkc
    by_cases he : title_feats o = kc0.1
    · rw [if_pos he] at hkc
      rcases List.mem_cons.mp hkc with heq | hkc'
      · rw [heq] at hp
        rcases List.mem_append.mp hp with hp' | hp'
        · exact hcs kc0 (List.mem_cons_self kc0 rest) p hp'
        · simp only [List.mem_singleton] at hp'
          exact hp' ▸ ho
      · exact hcs kc (List.mem_cons_of_mem kc0 hkc') p hp
    · rw [if_neg he] at hkc
      rcases List.mem_cons.mp hkc with heq | hkc'
      · rw [heq] at hp
        exact hcs kc0 (List.mem_cons_self kc0 rest) p hp
      · exact ih (fun kc2 h2 => hcs kc2 (List.mem_cons_of_mem kc0 h2)) kc hkc' p hp

/-- The cluster fold keeps all members inside the maximal-font candidates. -/
lemma clustersOf_sub (objs : List Para) :
    ∀ kc ∈ clustersOf objs, ∀ p ∈ kc.2, p ∈ max_font_objs objs := by
  rw [clustersOf]
  have hgen : ∀ (src : List Para)
      (acc : List ((ℚ × List String × Bool) × List Para)),
      (∀ p ∈ src, p ∈ max_font_objs objs) →
      (∀ kc ∈ acc, ∀ p ∈ kc.2, p ∈ max_font_objs objs) →
      ∀ kc ∈ src.foldl addToClusters acc, ∀ p ∈ kc.2, p ∈ max_font_objs objs := by
    intro src
    induction src with
    | nil => intro acc _ hacc; exact hacc
    | cons o rest ih =>
      intro acc hsrc hacc
      rw [List.foldl_cons]
      exact ih (addToClusters acc o)
        (fun p hp => hsrc p (List.mem_cons_of_mem o hp))
        (addToClusters_sub objs acc o hacc (hsrc o (List.mem_cons_self o rest)))
  exact hgen (max_font_objs objs) [] (fun p hp => hp) (by intro kc h; cases h)

/-- `pickLargest` selects one of the candidate clusters. -/
lemma pickLargest_sub (P : Para → Prop) :
    ∀ (best : List Para) (cs : List ((ℚ × List String × Bool) × List Para)),
    (∀ p ∈ best, P p) → (∀ kc ∈ cs, ∀ p ∈ kc.2, P p) →
    ∀ p ∈ pickLargest best cs, P p
  | best, [], hbest, _ => hbest
  | best, kc0 :: rest, hbest, hcs => by
    rw [pickLargest]
    by_cases hlen : best.length < kc0.2.length
    · rw [if_pos hlen]
      exact pickLargest_sub P kc0.2 rest
        (fun p hp => hcs kc0 (List.mem_cons_self kc0 rest) p hp)
        (fun kc h => hcs kc (List.mem_cons_of_mem kc0 h))
    · rw [if_neg hlen]
      exact pickLargest_sub P best rest hbest
        (fun kc h => hcs kc (List.mem_cons_of_mem kc0 h))

/-- Members of the selected largest cluster are maximal-font candidates. -/
lemma largest_title_cluster_sub (objs : List Para) :
    ∀ p ∈ largest_title_cluster objs, p ∈ max_font_objs objs := by
  rw [largest_title_cluster]
  rcases hcs : clustersOf objs with _ | ⟨kc0, rest⟩
  · intro p hp
    cases hp
  · refine pickLargest_sub _ kc0.2 rest ?_ ?_
    · exact fun p hp => clustersOf_sub objs kc0 (hcs ▸ List.mem_cons_self kc0 rest) p hp
    · exact fun kc h => clustersOf_sub objs kc (hcs ▸ List.mem_cons_of_mem kc0 h)

/-- The synthetic title candidate carries the maximal candidate font size
(`title_max_font_size`): it is a copy of a maximal-font candidate with only
text and bounding box replaced. -/
lemma title_candidate_rfs (objs : List Para) (t : Para)
    (h : title_candidate objs = some t) :
    t.relative_font_size = title_max_font_size objs := by
  unfold title_candidate at h
  rcases hlc : largest_title_cluster objs with _ | ⟨h0, t'⟩
  · rw [hlc] at h
    cases h
  · simp only [hlc] at h
    have hmem : h0 ∈ max_font_objs objs :=
      largest_title_cluster_sub objs h0 (hlc ▸ List.mem_cons_self h0 t')
    have hrfs : h0.relative_font_size = title_max_font_size objs := by
      have := List.mem_filter.mp hmem
      simpa using this.2
    split_ifs at h <;> cases h <;> exact hrfs

/-- C5 (amended): any two `title`-labeled records of the final labeling are
equal as paragraph records (each equals the synthetic title candidate); and
when a title exists, no record on the title's page with relative font size
below the title's is assigned `H1`, `H2` or `H3` by the initial assignment
pass (the lookahead-promotion pass may still promote such a record). -/
theorem title_exclusive_amended (objs : List Para) :
    (∀ x ∈ label_document_hierarchy objs, ∀ y ∈ label_document_hierarchy objs,
      x.level = "title" → y.level = "title" → x.para = y.para) ∧
    (∀ t, title_candidate objs = some t →
      t.relative_font_size = title_max_font_size objs ∧
      ∀ o : Para, o.page_num = lowest_page_num objs →
        o.relative_font_size < t.relative_font_size →
        assign_enhanced_level objs o ≠ "H1" ∧
        assign_enhanced_level objs o ≠ "H2" ∧
        assign_enhanced_level objs o ≠ "H3") := by
  constructor
  · intro x hx y hy hxt hyt
    obtain ⟨t, htc, hxp⟩ := label_title_eq objs x hx hxt
    obtain ⟨t2, htc2, hyp⟩ := label_title_eq objs y hy hyt
    rw [htc] at htc2
    cases htc2
    rw [hxp, hyp]
  · intro t htc
    refine ⟨title_candidate_rfs objs t htc, ?_⟩
    intro o hpage hrfs
    unfold assign_enhanced_level
    simp only [htc]
    by_cases he : o = t
    · rw [if_pos he]
      exact ⟨by decide, by decide, by decide⟩
    · rw [if_neg he, if_pos ⟨hpage, by
        rw [← title_candidate_rfs objs t htc]; exact hrfs⟩]
      exact ⟨by decide, by decide, by decide⟩

/-- C10 (amended): when the synthetic merged title differs from every input
record — in particular whenever title detection merged a multi-record
cluster into a text no record carries — no output record is labeled
`title` and the projected document title is the empty string. -/
theorem synthetic_title_lost (objs : List Para) (t : Para)
    (hclu : 1 < (largest_title_cluster objs).length)
    (htc : title_candidate objs = some t)
    (hne : ∀ o ∈ objs, o ≠ t) :
    (∀ x ∈ label_document_hierarchy objs, x.level ≠ "title") ∧
    (transform_to_schema (label_document_hierarchy objs)).title = "" := by
  have hnot : ∀ x ∈ label_document_hierarchy objs, x.level ≠ "title" := by
    intro x hx hxt
    obtain ⟨t2, htc2, hxp⟩ := label_title_eq objs x hx hxt
    rw [htc] at htc2
    cases htc2
    have hmem : x.para ∈ objs := by
      rw [← label_map_para objs]
      exact List.mem_map_of_mem _ hx
    exact hne x.para hmem hxp
  refine ⟨hnot, ?_⟩
  unfold transform_to_schema
  have hfind : (label_document_hierarchy objs).find?
      (fun x => (x.level = "title" : Bool)) = none := by
    rw [List.find?_eq_none]
    intro x hx
    simp [hnot x hx]
  simp only [hfind]

/-! ### Concrete evaluation on the documents `[pA, pQ, pR]` and `[pA2, pB2]` -/

/-- Title candidates of `[pA, pQ, pR]`: `pA` and `pQ`. -/
lemma evalAQR_cands : title_candidates [pA, pQ, pR] = [pA, pQ] := by
  have l2 : (pyStrip "Main Title Here").length = 15 := by decide
  have l3 : (pyStrip "Section Overview").length = 16 := by decide
  have l4 : pyIsDigit (pyStrip "Main Title Here") = false := by decide
  have l5 : pyIsDigit (pyStrip "Section Overview") = false := by decide
  have l6 : (pyStrip "some body text here").length = 19 := by decide
  have l7 : pyIsDigit (pyStrip "some body text here") = false := by decide
  norm_num [title_candidates, first_page_objects, lowest_page_num,
    pA, pQ, pR, basePara, l2, l3, l4, l5, l6, l7]

/-- Maximal candidate font size of `[pA, pQ, pR]`. -/
lemma evalAQR_tmax : title_max_font_size [pA, pQ, pR] = 5 := by
  have s1 := evalAQR_cands
  simp only [pA, pQ, pR, basePara] at s1
  unfold title_max_font_size
  simp only [pA, pQ, pR, basePara, s1]
  norm_num

/-- The maximal-font candidates of `[pA, pQ, pR]`. -/
lemma evalAQR_maxobjs : max_font_objs [pA, pQ, pR] = [pA] := by
  have s1 := evalAQR_cands
  have s2 := evalAQR_tmax
  simp only [pA, pQ, pR, basePara] at s1 s2
  unfold max_font_objs
  simp only [pA, pQ, pR, basePara, s1, s2]
  norm_num

/-- The largest title cluster of `[pA, pQ, pR]` is the singleton `[pA]`. -/
lemma evalAQR_cluster : largest_title_cluster [pA, pQ, pR] = [pA] := by
  have s3 := evalAQR_maxobjs
  simp only [pA, pQ, pR, basePara] at s3
  unfold largest_title_cluster clustersOf
  simp only [pA, pQ, pR, basePara, s3]
  norm_num [addToClusters, pickLargest]

/-- The title of `[pA, pQ, pR]` is the single-member cluster `pA` itself. -/
lemma evalAQR_title : title_candidate [pA, pQ, pR] = some pA := by
  have s4 := evalAQR_cluster
  have l1 : pyStrip "Main Title Here" = "Main Title Here" := by decide
  simp only [pA, pQ, pR, basePara] at s4 ⊢
  unfold title_candidate
  simp only [pA, pQ, pR, basePara, s4]
  norm_num [joinSpace, l1]

/-- Collected font sizes of `[pA, pQ, pR]`: only `pQ` contributes. -/
lemma evalAQR_sizes : label_font_sizes [pA, pQ, pR] = [3] := by
  have e1' := evalAQR_title
  simp only [pA, pQ, pR, basePara] at e1'
  norm_num [label_font_sizes, e1', pA, pQ, pR, basePara]

/-- Thresholds of `[pA, pQ, pR]`: a single distinct size. -/
lemma evalAQR_thr : thresholds_of [pA, pQ, pR] = (3, 0, 0) := by
  unfold thresholds_of
  rw [evalAQR_sizes]
  norm_num [computeThresholds, sortedUnique, dedupFirst,
    List.insertionSort, List.orderedInsert]

/-- `pA` is labeled `title` by the initial pass. -/
lemma evalAQR_assignA : assign_enhanced_level [pA, pQ, pR] pA = "title" := by
  have e1' := evalAQR_title
  simp only [pA, pQ, pR, basePara] at e1' ⊢
  simp only [assign_enhanced_level, e1']
  simp

/-- `pQ` (title page, lower font rank) is forced to `p`. -/
lemma evalAQR_assignQ : assign_enhanced_level [pA, pQ, pR] pQ = "p" := by
  have e1' := evalAQR_title
  have et' := evalAQR_tmax
  have el : lowest_page_num [pA, pQ, pR] = 1 := by decide
  simp only [pA, pQ, pR, basePara] at e1' et' el ⊢
  simp only [assign_enhanced_level, e1']
  rw [if_neg (by norm_num), if_pos ⟨el, by rw [et']; norm_num⟩]

/-- `pR` (title page, zero font rank) is forced to `p`. -/
lemma evalAQR_assignR : assign_enhanced_level [pA, pQ, pR] pR = "p" := by
  have e1' := evalAQR_title
  have et' := evalAQR_tmax
  have el : lowest_page_num [pA, pQ, pR] = 1 := by decide
  simp only [pA, pQ, pR, basePara] at e1' et' el ⊢
  simp only [assign_enhanced_level, e1']
  rw [if_neg (by norm_num), if_pos ⟨el, by rw [et']; norm_num⟩]

/-- Full labeling of `[pA, pQ, pR]`: the lookahead pass promotes the bold
`pQ` (below the title's font size, on the title's page) to `H3`, and the
repair pass rewrites it to `H1`. -/
lemma evalAQR_label :
    label_document_hierarchy [pA, pQ, pR] =
      [⟨pA, "title"⟩, ⟨pQ, "H1"⟩, ⟨pR, "p"⟩] := by
  have e2' := evalAQR_sizes
  have e3' := evalAQR_thr
  have e4a' := evalAQR_assignA
  have e4b' := evalAQR_assignQ
  have e4c' := evalAQR_assignR
  simp only [pA, pQ, pR, basePara] at e2' e3' e4a' e4b' e4c' ⊢
  norm_num [label_document_hierarchy, initial_labeling, e2', e3', e4a', e4b',
    e4c', lookahead_promote, promote_cond, ensure_logical_hierarchy, repairGo,
    ensure_step]
  simp

/-- Counterexample to C5 as stated: in `[pA, pQ, pR]` the title is `pA`
(page 1, relative font size 5) and `pQ` sits on the title's page with the
lower relative font size 3, yet the final output labels `pQ` with `H1` —
the lookahead-promotion pass promoted it and hierarchy repair raised it. -/
theorem title_exclusive_cex :
    (title_candidate [pA, pQ, pR] = some pA) ∧
    pQ.page_num = lowest_page_num [pA, pQ, pR] ∧
    pQ.relative_font_size < pA.relative_font_size ∧
    (label_document_hierarchy [pA, pQ, pR]).map (fun x => x.level) =
      ["title", "H1", "p"] := by
  refine ⟨evalAQR_title, by decide, by decide, ?_⟩
  rw [evalAQR_label]
  rfl

/-- Witness for the amended C5 at the concrete document `[pA, pQ, pR]`:
the forced-`p` initial assignment for the lower-ranked title-page record
`pQ`. -/
theorem title_exclusive_amended_witness :
    assign_enhanced_level [pA, pQ, pR] pQ ≠ "H1" ∧
    assign_enhanced_level [pA, pQ, pR] pQ ≠ "H2" ∧
    assign_enhanced_level [pA, pQ, pR] pQ ≠ "H3" :=
  ((title_exclusive_amended [pA, pQ, pR]).2 pA evalAQR_title).2 pQ
    (by decide) (by decide)

/-- The largest title cluster of `[pA2, pB2]` has the two members. -/
lemma evalAB_cluster : largest_title_cluster [pA2, pB2] = [pA2, pB2] := by
  have l2 : (pyStrip "Hello Document").length = 14 := by decide
  have l3 : (pyStrip "World Title").length = 11 := by decide
  have l4 : pyIsDigit (pyStrip "Hello Document") = false := by decide
  have l5 : pyIsDigit (pyStrip "World Title") = false := by decide
  norm_num [largest_title_cluster, clustersOf, addToClusters, pickLargest,
    max_font_objs, title_candidates, first_page_objects, lowest_page_num,
    title_max_font_size, title_feats, pA2, pB2, basePara, l2, l3, l4, l5]

/-- The synthetic merged title of `[pA2, pB2]`. -/
lemma evalAB_title : title_candidate [pA2, pB2] = some mergedAB := by
  have ec' := evalAB_cluster
  have l1 : pyStrip "Hello Document" = "Hello Document" := by decide
  have l2 : pyStrip "World Title" = "World Title" := by decide
  simp only [pA2, pB2, basePara, mergedAB] at ec' ⊢
  simp only [title_candidate, ec']
  norm_num [joinSpace, listMean, l1, l2]
  exact ⟨by decide, by simp⟩

/-- No input record of `[pA2, pB2]` equals the merged title. -/
lemma evalAB_distinct : ∀ o ∈ [pA2, pB2], o ≠ mergedAB := by
  intro o ho
  rcases List.mem_cons.mp ho with rfl | ho'
  · simp [pA2, pB2, basePara, mergedAB]
  · rcases List.mem_cons.mp ho' with rfl | ho''
    · simp [pA2, pB2, basePara, mergedAB]
    · cases ho''

/-- Witness for C10 at the concrete document `[pA2, pB2]`: the two-member
cluster produces a merged title no record equals, so no record is labeled
`title` and the projected title is empty. -/
theorem synthetic_title_lost_witness :
    (∀ x ∈ label_document_hierarchy [pA2, pB2], x.level ≠ "title") ∧
    (transform_to_schema (label_document_hierarchy [pA2, pB2])).title = "" :=
  synthetic_title_lost [pA2, pB2] mergedAB
    (by rw [evalAB_cluster]; decide) evalAB_title evalAB_distinct

end OmniPdf
